import Mathlib

set_option autoImplicit false

namespace JON

/-! Shallow embedding of the jon scanner (src/include/jon/Lexer.h) and the schema
validator (src/include/jon/schema.h).

Computations are modelled in `Res ε α = Option (Except ε α)`:
`some (.ok a)` is a normal return, `some (.error e)` a thrown C++ exception, and
`none` stands for a loop that has not finished within the given fuel, so a result
of `none` for every fuel models nontermination. -/

def Res (ε α : Type) : Type := Option (Except ε α)

def Res.ok {ε α : Type} (a : α) : Res ε α := some (.ok a)

def Res.err {ε α : Type} (e : ε) : Res ε α := some (.error e)

def Res.div {ε α : Type} : Res ε α := none

instance {ε : Type} : Monad (Res ε) where
  pure a := Res.ok a
  bind x f :=
    match x with
    | none => none
    | some (.error e) => some (.error e)
    | some (.ok a) => f a

instance {ε α : Type} [DecidableEq ε] [DecidableEq α] : DecidableEq (Except ε α) := fun x y =>
  match x, y with
  | .ok a, .ok b =>
    if h : a = b then isTrue (by rw [h])
    else isFalse (by intro hh; injection hh; contradiction)
  | .error e, .error f =>
    if h : e = f then isTrue (by rw [h])
    else isFalse (by intro hh; injection hh; contradiction)
  | .ok _, .error _ => isFalse (by intro hh; exact Except.noConfusion hh)
  | .error _, .ok _ => isFalse (by intro hh; exact Except.noConfusion hh)

instance {ε α : Type} [DecidableEq ε] [DecidableEq α] : DecidableEq (Res ε α) :=
  inferInstanceAs (DecidableEq (Option (Except ε α)))

@[simp] theorem Res.bind_ok {ε α β : Type} (a : α) (f : α → Res ε β) :
    (Res.ok a >>= f) = f a := rfl

@[simp] theorem Res.bind_err {ε α β : Type} (e : ε) (f : α → Res ε β) :
    (Res.err e >>= f) = Res.err e := rfl

@[simp] theorem Res.bind_div {ε α β : Type} (f : α → Res ε β) :
    (Res.div >>= f) = (Res.div : Res ε β) := rfl

@[simp] theorem Res.pure_eq {ε α : Type} (a : α) : (pure a : Res ε α) = Res.ok a := rfl

@[simp] theorem Res.ok_inj {ε α : Type} (a b : α) : (Res.ok (ε := ε) a = Res.ok b) ↔ a = b := by
  constructor
  · intro h
    exact Except.ok.inj (Option.some.inj h)
  · intro h
    exact congrArg _ h

@[simp] theorem Res.ok_ne_err {ε α : Type} (a : α) (e : ε) : Res.ok a ≠ Res.err e := by
  intro h
  exact Except.noConfusion (Option.some.inj h)

@[simp] theorem Res.err_ne_ok {ε α : Type} (a : α) (e : ε) : Res.err e ≠ Res.ok a := by
  intro h
  exact Except.noConfusion (Option.some.inj h)

@[simp] theorem Res.ok_ne_div {ε α : Type} (a : α) : Res.ok (ε := ε) a ≠ Res.div := by
  intro h
  exact Option.noConfusion h

@[simp] theorem Res.div_ne_ok {ε α : Type} (a : α) : Res.div ≠ Res.ok (ε := ε) a := by
  intro h
  exact Option.noConfusion h

@[simp] theorem Res.err_ne_div {ε α : Type} (e : ε) : Res.err (α := α) e ≠ Res.div := by
  intro h
  exact Option.noConfusion h

@[simp] theorem Res.div_ne_err {ε α : Type} (e : ε) : Res.div ≠ Res.err (α := α) e := by
  intro h
  exact Option.noConfusion h

/-! Token model, from the TokenKind / Span / Token declarations of Lexer.h. -/

inductive TokenKind where
  | eof | nl
  | comma | colon | lbrace | rbrace | lbracket | rbracket
  | nullLit | falseLit | trueLit | nanLit | infLit | negInfLit
  | binInt | hexInt | octoInt | decInt
  | float
  | string
deriving DecidableEq, Repr

structure Span where
  pos : Nat
  len : Nat
deriving DecidableEq, Repr

structure Token where
  kind : TokenKind
  val : String
  span : Span
deriving DecidableEq, Repr

/-- Token::intBase: the base a token kind is tagged with; the source throws a
logic_error for non-int kinds, modelled as `none`. DecInt maps to 0 in the source. -/
def intBase : TokenKind → Option Nat
  | .decInt => some 0
  | .hexInt => some 16
  | .octoInt => some 8
  | .binInt => some 2
  | _ => none

inductive LexErr where
  | parseError (diag : String)
  | outOfRange
  | logicError (msg : String)
deriving DecidableEq, Repr

/-- Mutable scanner state: index, lastNl, col (uint16), the token list and tokenPos.
The source text itself never changes and is passed separately. -/
structure LexSt where
  index : Nat
  lastNl : Nat
  col : Nat
  tokens : List Token
  tokenPos : Nat
deriving DecidableEq, Repr

/-- The single-quote character, kept as a named constant. -/
def quoteC : Char := Char.ofNat 39

/-- The NUL character returned by `advance`/`lookup` at end of input. -/
def nulC : Char := Char.ofNat 0

/-- std::string::at — throws std::out_of_range past the end. -/
def charAt (src : List Char) (i : Nat) : Res LexErr Char :=
  match src[i]? with
  | some c => Res.ok c
  | none => Res.err .outOfRange

/-- Lexer::peek: `source.at(index)`. -/
def peek (src : List Char) (st : LexSt) : Res LexErr Char :=
  charAt src st.index

/-- Lexer::eof: `index >= source.size()`. -/
def eofB (src : List Char) (st : LexSt) : Bool := src.length ≤ st.index

/-- size_t subtraction `a - b`: the exact value when it does not underflow, and
the C++ wrap-around modulo 2^64 when it does. -/
def usub64 (a b : Nat) : Nat := if b ≤ a then a - b else (a + (2 ^ 64 - b)) % 2 ^ 64

/-- Lexer::lookup: `index < source.size() - dist ? source.at(index + dist) : char(0)`,
where the subtraction is size_t arithmetic. -/
def lookup (src : List Char) (st : LexSt) (dist : Nat) : Res LexErr Char :=
  if st.index < usub64 src.length dist then charAt src (st.index + dist)
  else Res.ok nulC

/-- The per-character body of Lexer::advance's for-loop: the `isNL()` test peeks
(and can throw), then lastNl/col are updated and the index is incremented. -/
def advLoop (src : List Char) : Nat → LexSt → Res LexErr LexSt
  | 0, st => Res.ok st
  | d + 1, st => do
    let c ← peek src st
    let st :=
      if c = '\n' then { st with lastNl := st.index, col := 0 }
      else { st with col := (st.col + 1) % 65536 }
    advLoop src d { st with index := st.index + 1 }

/-- Lexer::advance: reads the current char, steps `dist` positions, and returns
the char it started on — or NUL if the new position is end of input. -/
def advance (src : List Char) (st : LexSt) (dist : Nat) : Res LexErr (Char × LexSt) := do
  let cur ← peek src st
  let st ← advLoop src dist st
  Res.ok ((if eofB src st then nulC else cur), st)

/-- Lexer::skipOpt. -/
def skipOpt (src : List Char) (st : LexSt) (c : Char) : Res LexErr (Bool × LexSt) := do
  let p ← peek src st
  if p = c then do
    let (_, st) ← advance src st 1
    Res.ok (true, st)
  else Res.ok (false, st)

def addTokenVal (st : LexSt) (kind : TokenKind) (val : String) : LexSt :=
  { st with tokens := st.tokens ++ [{ kind := kind, val := val, span := { pos := st.tokenPos, len := val.length } }] }

def addTokenLen (st : LexSt) (kind : TokenKind) (len : Nat) : LexSt :=
  { st with tokens := st.tokens ++ [{ kind := kind, val := "", span := { pos := st.tokenPos, len := len } }] }

def addTokenAdvance (src : List Char) (st : LexSt) (kind : TokenKind) (len : Nat) : Res LexErr LexSt := do
  let (_, st) ← advance src st len
  Res.ok (addTokenLen st kind len)

def mkSpaces (n : Nat) : String := String.mk (List.replicate n ' ')

/-- The slicing loop of Lexer::error: advance to the end of the current line,
remembering the last index seen before a newline or end of input. -/
def errSlice (src : List Char) : Nat → LexSt → Nat → Res LexErr (Nat × LexSt)
  | 0, _, _ => Res.div
  | fuel + 1, st, sliceTo =>
    if eofB src st then Res.ok (sliceTo, st)
    else do
      let sliceTo := st.index
      let c ← peek src st
      if c = '\n' then Res.ok (sliceTo, st)
      else do
        let (_, st) ← advance src st 1
        errSlice src fuel st sliceTo

/-- Lexer::error: slices the offending source line, builds the caret pointer line
from the (post-slice) column, and throws a parse_error with the diagnostic. -/
def error {α : Type} (src : List Char) (fuel : Nat) (st : LexSt) (msg : String) : Res LexErr α := do
  let (sliceTo, st) ← errSlice src fuel st st.index
  let line := String.mk (List.take (usub64 sliceTo st.lastNl) (List.drop st.lastNl src))
  let pointLine :=
    if msg.length + 2 < st.col then mkSpaces (st.col - msg.length - 1) ++ msg ++ " ^"
    else mkSpaces st.col ++ "^ " ++ msg
  Res.err (.parseError ("\n" ++ line ++ "\n" ++ pointLine))

/-- Lexer::expectedError. -/
def expectedError {α : Type} (src : List Char) (fuel : Nat) (st : LexSt) (expected : String) : Res LexErr α := do
  let p ← peek src st
  let got := if p = '\n' then "new line" else "`" ++ String.singleton p ++ "`"
  error src fuel st ("Expected " ++ expected ++ ", got " ++ got)

/-- Lexer::skip: peeks (which can itself throw std::out_of_range at end of input),
raises the formatted diagnostic on mismatch, else advances. -/
def skip (src : List Char) (fuel : Nat) (st : LexSt) (c : Char) : Res LexErr LexSt := do
  let p ← peek src st
  if p ≠ c then expectedError src fuel st ("`" ++ String.singleton c ++ "`")
  else do
    let (_, st) ← advance src st 1
    Res.ok st

/-- The nested block-comment loop of Lexer::lexComment. As in the source, the body
inspects peek/lookup and updates the uint8 depth counter, but never advances the
index. -/
def blockLoop (src : List Char) : Nat → LexSt → Nat → Res LexErr LexSt
  | 0, _, _ => Res.div
  | fuel + 1, st, depth =>
    if eofB src st then Res.ok st
    else do
      let p ← peek src st
      let l ← lookup src st 1
      let depth := if p = '/' ∧ l = '*' then (depth + 1) % 256 else depth
      let depth := if p = '*' ∧ l = '/' then (depth + 255) % 256 else depth
      if depth = 0 then Res.ok st
      else blockLoop src fuel st depth

/-- The line-comment loop of Lexer::lexComment: advance, then test isNL (which
peeks and can throw at end of input). -/
def lineLoop (src : List Char) : Nat → LexSt → Res LexErr LexSt
  | 0, _ => Res.div
  | fuel + 1, st =>
    if eofB src st then Res.ok st
    else do
      let (_, st) ← advance src st 1
      let c ← peek src st
      if c = '\n' then Res.ok st
      else lineLoop src fuel st

/-- Lexer::lexComment. -/
def lexComment (src : List Char) (fuel : Nat) (st : LexSt) : Res LexErr LexSt := do
  let p ← peek src st
  if p ≠ '/' then Res.err (.logicError "lexComment called with not the slash char")
  else do
    let l ← lookup src st 1
    if l = '*' then do
      let (_, st) ← advance src st 2
      blockLoop src fuel st 1
    else if l = '/' then lineLoop src fuel st
    else Res.ok st

/-- Lexer::isSeq for three identical chars, with the && short-circuit of the C++
fold expression. -/
def isSeq3 (src : List Char) (st : LexSt) (q : Char) : Res LexErr Bool := do
  let c0 ← lookup src st 0
  if c0 ≠ q then Res.ok false
  else do
    let c1 ← lookup src st 1
    if c1 ≠ q then Res.ok false
    else do
      let c2 ← lookup src st 2
      Res.ok (c2 == q)

/-- The scan loop of Lexer::lexMLString. -/
def mlLoop (src : List Char) (q : Char) : Nat → LexSt → String → Res LexErr (Bool × String × LexSt)
  | 0, _, _ => Res.div
  | fuel + 1, st, val =>
    if eofB src st then Res.ok (false, val, st)
    else do
      let s3 ← isSeq3 src st q
      if s3 then Res.ok (true, val, st)
      else do
        let (ch, st) ← advance src st 1
        mlLoop src q fuel st (val.push ch)

/-- Lexer::lexMLString. -/
def lexMLString (src : List Char) (fuel : Nat) (st : LexSt) : Res LexErr LexSt := do
  let quote ← peek src st
  let (_, st) ← advance src st 3
  let (closed, val, st) ← mlLoop src quote fuel st ""
  if ¬ closed then expectedError src fuel st (String.mk [quote, quote, quote])
  else do
    let (_, st) ← advance src st 3
    Res.ok (addTokenVal st .string val)

/-- The scan loop of Lexer::lexNormalString: break on newline or the quote, else
append the advanced char. -/
def strLoop (src : List Char) (q : Char) : Nat → LexSt → String → Res LexErr (String × LexSt)
  | 0, _, _ => Res.div
  | fuel + 1, st, val =>
    if eofB src st then Res.ok (val, st)
    else do
      let c ← peek src st
      if c = '\n' ∨ c = q then Res.ok (val, st)
      else do
        let (ch, st) ← advance src st 1
        strLoop src q fuel st (val.push ch)

/-- Lexer::lexNormalString. Note that `advance` returns NUL when the quote is the
last char of the input, so `quote` can be NUL here, exactly as in the source. -/
def lexNormalString (src : List Char) (fuel : Nat) (st : LexSt) : Res LexErr LexSt := do
  let (quote, st) ← advance src st 1
  let (val, st) ← strLoop src quote fuel st ""
  let st ← skip src fuel st quote
  Res.ok (addTokenVal st .string val)

/-- Lexer::lexString. -/
def lexString (src : List Char) (fuel : Nat) (st : LexSt) : Res LexErr LexSt := do
  let quote ← peek src st
  let s3 ← isSeq3 src st quote
  if s3 then lexMLString src fuel st
  else lexNormalString src fuel st

def isDigitC (c : Char) : Bool := decide ('0' ≤ c ∧ c ≤ '9')

def isHexDigitC (c : Char) : Bool :=
  isDigitC c || decide ('a' ≤ c ∧ c ≤ 'f') || decide ('A' ≤ c ∧ c ≤ 'F')

def isOctDigitC (c : Char) : Bool := decide ('0' ≤ c ∧ c ≤ '7')

/-- The shared digit loop of Lexer::lexNum:
`while (not eof()) { skipOpt de underscore; if (not pred(peek)) break; val += advance(); }`.
The peek after skipOpt can throw when an underscore was the last input char. -/
def numLoop (src : List Char) (pred : Char → Bool) : Nat → LexSt → String → Res LexErr (String × LexSt)
  | 0, _, _ => Res.div
  | fuel + 1, st, val =>
    if eofB src st then Res.ok (val, st)
    else do
      let (_, st) ← skipOpt src st '_'
      let c ← peek src st
      if ¬ pred c then Res.ok (val, st)
      else do
        let (ch, st) ← advance src st 1
        numLoop src pred fuel st (val.push ch)

/-- Lexer::lexNum, transcribed branch by branch. The binary branch tags its token
`octoInt`, as the source does. After a base-specific branch the next guard peeks
again, which throws std::out_of_range when the literal ends the input. -/
def lexNum (src : List Char) (fuel : Nat) (st : LexSt) : Res LexErr LexSt := do
  let p0 ← peek src st
  let (sign, val, st) ←
    if p0 = '+' then do
      let (_, st) ← advance src st 1
      Res.ok (false, "", st)
    else if p0 = '-' then do
      let (_, st) ← advance src st 1
      Res.ok (true, "-", st)
    else Res.ok (false, "", st)
  let p ← peek src st
  let l ← lookup src st 1
  let (baseSpecific, kindO, val, st) ←
    if p = '0' ∧ (l = 'b' ∨ l = 'B') then
      if sign then error src fuel st "Signed binary numbers are not allowed"
      else do
        let (_, st) ← advance src st 2
        let c ← peek src st
        if ¬ (c = '0' ∨ c = '1') then expectedError src fuel st "binary digit"
        else do
          let (val, st) ← numLoop src (fun c => c == '0' || c == '1') fuel st val
          Res.ok (true, some TokenKind.octoInt, val, st)
    else Res.ok (false, (none : Option TokenKind), val, st)
  let p ← peek src st
  let l ← lookup src st 1
  let (baseSpecific, kindO, val, st) ←
    if p = '0' ∧ (l = 'x' ∨ l = 'X') then
      if sign then error src fuel st "Signed hexadecimal numbers are not allowed"
      else do
        let (_, st) ← advance src st 2
        let c ← peek src st
        if ¬ isHexDigitC c then expectedError src fuel st "hexadecimal digit"
        else do
          let (val, st) ← numLoop src isHexDigitC fuel st val
          Res.ok (true, some TokenKind.hexInt, val, st)
    else Res.ok (baseSpecific, kindO, val, st)
  let p ← peek src st
  let l ← lookup src st 1
  let (baseSpecific, kindO, val, st) ←
    if p = '0' ∧ (l = 'o' ∨ l = 'O') then
      if sign then error src fuel st "Signed octal numbers are not allowed"
      else do
        let (_, st) ← advance src st 2
        let c ← peek src st
        if ¬ isOctDigitC c then expectedError src fuel st "octal digit"
        else do
          let (val, st) ← numLoop src isOctDigitC fuel st val
          Res.ok (true, some TokenKind.octoInt, val, st)
    else Res.ok (baseSpecific, kindO, val, st)
  let (kindO, val, st) ←
    if ¬ baseSpecific then do
      let (val, st) ← numLoop src isDigitC fuel st val
      let c ← peek src st
      if c = '.' then do
        let (ch, st) ← advance src st 1
        let val := val.push ch
        let c2 ← peek src st
        if ¬ isDigitC c2 then expectedError src fuel st "fractional part of number"
        else do
          let (val, st) ← numLoop src isDigitC fuel st val
          Res.ok (some TokenKind.float, val, st)
      else Res.ok (some TokenKind.decInt, val, st)
    else Res.ok (kindO, val, st)
  match kindO with
  | some k => Res.ok (addTokenVal st k val)
  | none => Res.err (.logicError "TokenKind read uninitialized")

/-- Modelled from the spec: `rtrim` lives in the repository's utils header, which is
not under src; per the spec the captured candidate identifier is reclassified
"after trimming trailing horizontal whitespace". -/
def rtrim (s : String) : String :=
  String.mk (List.reverse (List.dropWhile (fun c => c == ' ' || c == '\t' || c == '\r') s.data.reverse))

/-- The identifier-capture loop of Lexer::lexMisc. -/
def identLoop (src : List Char) : Nat → LexSt → String → Res LexErr (String × LexSt)
  | 0, _, _ => Res.div
  | fuel + 1, st, val =>
    if eofB src st then Res.ok (val, st)
    else do
      let c ← peek src st
      if c = ',' ∨ c = ':' ∨ c = '{' ∨ c = '}' ∨ c = '[' ∨ c = ']' ∨ c = quoteC ∨ c = '"' ∨ c = '\n'
      then Res.ok (val, st)
      else do
        let (ch, st) ← advance src st 1
        identLoop src fuel st (val.push ch)

/-- Lexer::lexMisc. The branch for the trimmed text "true" emits TokenKind::False,
exactly as the source does. -/
def lexMisc (src : List Char) (fuel : Nat) (st : LexSt) : Res LexErr LexSt := do
  let c ← peek src st
  if c = '\n' then addTokenAdvance src st .nl 1
  else if c = ' ' ∨ c = '\t' ∨ c = '\r' then do
    let (_, st) ← advance src st 1
    Res.ok st
  else do
    let l ← lookup src st 1
    if isDigitC c ∨ ((c = '-' ∨ c = '+') ∧ isDigitC l) then lexNum src fuel st
    else do
      let (val, st) ← identLoop src fuel st ""
      let trimmed := rtrim val
      if trimmed = "null" then Res.ok (addTokenLen st .nullLit 4)
      else if trimmed = "false" then Res.ok (addTokenLen st .falseLit 5)
      else if trimmed = "true" then Res.ok (addTokenLen st .falseLit 4)
      else if trimmed = "nan" then Res.ok (addTokenLen st .nanLit 3)
      else if trimmed = "inf" then Res.ok (addTokenLen st .infLit 3)
      else if trimmed = "-inf" then Res.ok (addTokenLen st .negInfLit 3)
      else Res.ok (addTokenVal st .string val)

/-- Lexer::lexCurrent. -/
def lexCurrent (src : List Char) (fuel : Nat) (st : LexSt) : Res LexErr LexSt := do
  let c ← peek src st
  if c = '/' then lexComment src fuel st
  else if c = quoteC ∨ c = '"' then lexString src fuel st
  else if c = ',' then addTokenAdvance src st .comma 1
  else if c = ':' then addTokenAdvance src st .colon 1
  else if c = '{' then addTokenAdvance src st .lbrace 1
  else if c = '}' then addTokenAdvance src st .rbrace 1
  else if c = '[' then addTokenAdvance src st .lbracket 1
  else if c = ']' then addTokenAdvance src st .rbracket 1
  else lexMisc src fuel st

/-- The main scan loop of Lexer::lex. -/
def mainLoop (src : List Char) : Nat → LexSt → Res LexErr LexSt
  | 0, _ => Res.div
  | fuel + 1, st =>
    if eofB src st then Res.ok st
    else do
      let st := { st with tokenPos := st.index }
      let st ← lexCurrent src fuel st
      mainLoop src fuel st

/-- The fresh scanner state of Lexer::lex. -/
def lexInit : LexSt := { index := 0, lastNl := 0, col := 0, tokens := [], tokenPos := 0 }

/-- Lexer::lex: run the scan loop from a fresh state, then append the Eof token. -/
def lex (fuel : Nat) (source : String) : Res LexErr (List Token) := do
  let src := source.data
  let st ← mainLoop src fuel lexInit
  let st := { st with tokenPos := st.index }
  Res.ok (addTokenLen st .eof 0).tokens

/-! Value model and schema validator.

The `jon` value class itself (jon.h) is not under src; only its consumer
src/include/jon/schema.h is. The accessors below are therefore modelled from the
spec (sections 3 and 4.3): a closed sum over Null/Bool/Int/Float/String/Object/
Array, where `at` fails with a not-found error, `get` fails with a type-mismatch
error, `has` is an existence check, and `type()`/`isNull()` are tag reads.
Int payloads are modelled as unbounded integers (the claims only involve small
values, far from the int64 range) and Float payloads as rationals (the validator
only compares them with <=/>=; no rounding is involved in any claim). -/

inductive Jon where
  | null
  | bool (b : Bool)
  | int (i : Int)
  | float (q : Rat)
  | str (s : String)
  | obj (entries : List (String × Jon))
  | arr (elems : List Jon)
deriving Repr

/-- jon::Type. -/
inductive JType where
  | null | bool | int | float | string | object | array
deriving DecidableEq, Repr

inductive SchemaErr where
  | keyNotFound (k : String)
  | typeMismatch
  | unknownTypeName (n : String)
deriving DecidableEq, Repr

/-- First-match association-list lookup, the model of std::map find/at on an
Object's entries (std::map keys are unique, so first match is the match). -/
def lookupKey : List (String × Jon) → String → Option Jon
  | [], _ => none
  | (k, v) :: rest, key => if k = key then some v else lookupKey rest key

/-- Modelled from the spec: `type()` returns the variant tag. -/
def Jon.typeOf : Jon → JType
  | .null => .null
  | .bool _ => .bool
  | .int _ => .int
  | .float _ => .float
  | .str _ => .string
  | .obj _ => .object
  | .arr _ => .array

/-- Modelled from the spec: `isNull()` is an O(1) tag check. -/
def Jon.isNull : Jon → Bool
  | .null => true
  | _ => false

/-- Modelled from the spec: `has(key)` is the Object existence check. -/
def Jon.has (j : Jon) (key : String) : Bool :=
  match j with
  | .obj es => (lookupKey es key).isSome
  | _ => false

/-- Modelled from the spec: `at(key)` / `operator[]` fails with a not-found error
naming the missing key. -/
def Jon.atKey (j : Jon) (key : String) : Except SchemaErr Jon :=
  match j with
  | .obj es =>
    match lookupKey es key with
    | some v => .ok v
    | none => .error (.keyNotFound key)
  | _ => .error .typeMismatch

/-- Modelled from the spec: `get<bool_t>` fails with a type-mismatch error. -/
def Jon.getBool : Jon → Except SchemaErr Bool
  | .bool b => .ok b
  | _ => .error .typeMismatch

def Jon.getInt : Jon → Except SchemaErr Int
  | .int i => .ok i
  | _ => .error .typeMismatch

def Jon.getFloat : Jon → Except SchemaErr Rat
  | .float q => .ok q
  | _ => .error .typeMismatch

def Jon.getStr : Jon → Except SchemaErr String
  | .str s => .ok s
  | _ => .error .typeMismatch

def Jon.getObj : Jon → Except SchemaErr (List (String × Jon))
  | .obj es => .ok es
  | _ => .error .typeMismatch

def Jon.getArr : Jon → Except SchemaErr (List Jon)
  | .arr vs => .ok vs
  | _ => .error .typeMismatch

/-- `at<T>(key)`: typed retrieval at a key. -/
def Jon.atStr (j : Jon) (key : String) : Except SchemaErr String := do
  Jon.getStr (← j.atKey key)

def Jon.atInt (j : Jon) (key : String) : Except SchemaErr Int := do
  Jon.getInt (← j.atKey key)

def Jon.atFloat (j : Jon) (key : String) : Except SchemaErr Rat := do
  Jon.getFloat (← j.atKey key)

def Jon.atObj (j : Jon) (key : String) : Except SchemaErr (List (String × Jon)) := do
  Jon.getObj (← j.atKey key)

/-- Schema::typeNames, the constant string-to-type table. -/
def typeNames (n : String) : Option JType :=
  if n = "null" then some .null
  else if n = "bool" then some .bool
  else if n = "int" then some .int
  else if n = "float" then some .float
  else if n = "string" then some .string
  else if n = "object" then some .object
  else if n = "array" then some .array
  else none

/-- `typeNames.at(name)`: std::map::at throws for an unknown name. -/
def typeNamesAt (n : String) : Except SchemaErr JType :=
  match typeNames n with
  | some t => .ok t
  | none => .error (.unknownTypeName n)

/-- Lift a thrown-or-value computation into `Res`. -/
def liftE {ε α : Type} (x : Except ε α) : Res ε α := some x

@[simp] theorem liftE_ok {ε α : Type} (a : α) : liftE (ε := ε) (.ok a) = Res.ok a := rfl

@[simp] theorem liftE_error {ε α : Type} (e : ε) : liftE (α := α) (.error e) = Res.err e := rfl

/-- The C++ `status &= <recursive call>` on a bool: `none` (an unspecified value
produced by a fall-through return) poisons the accumulator. -/
def andO : Option Bool → Option Bool → Option Bool
  | some a, some b => some (a && b)
  | _, _ => none

/-- uint64 image of an int64, as produced by the usual arithmetic conversions when
a size_t is compared with an int64. -/
def toU64 (i : Int) : Nat := (i % (2 ^ 64 : Int)).toNat

/-- `container.size() >= schema.at<int_t>(key)`: unsigned comparison. -/
def sizeGe (n : Nat) (i : Int) : Bool := decide (toU64 i ≤ n)

/-- `container.size() <= schema.at<int_t>(key)`: unsigned comparison. -/
def sizeLe (n : Nat) (i : Int) : Bool := decide (n ≤ toU64 i)

/-- The nullable flag: `schema.has("nullable") and schema["nullable"].get<bool_t>()`. -/
def nullableOf (schema : Jon) : Res SchemaErr Bool :=
  if schema.has "nullable" then do
    let nv ← liftE (schema.atKey "nullable")
    liftE nv.getBool
  else Res.ok false

/-- One `if (schema.has(key)) { status &= x <= schema.at<int_t>(key); }` block. -/
def intCheckLe (schema : Jon) (key : String) (x : Int) (status : Bool) : Res SchemaErr Bool :=
  if schema.has key then do
    let m ← liftE (schema.atInt key)
    Res.ok (status && decide (x ≤ m))
  else Res.ok status

/-- One `if (schema.has(key)) { status &= x >= schema.at<int_t>(key); }` block. -/
def intCheckGe (schema : Jon) (key : String) (x : Int) (status : Bool) : Res SchemaErr Bool :=
  if schema.has key then do
    let m ← liftE (schema.atInt key)
    Res.ok (status && decide (x ≥ m))
  else Res.ok status

/-- The float analogue of `intCheckLe`, via `get<float_t>`. -/
def ratCheckLe (schema : Jon) (key : String) (x : Rat) (status : Bool) : Res SchemaErr Bool :=
  if schema.has key then do
    let m ← liftE (schema.atFloat key)
    Res.ok (status && decide (x ≤ m))
  else Res.ok status

/-- The float analogue of `intCheckGe`. -/
def ratCheckGe (schema : Jon) (key : String) (x : Rat) (status : Bool) : Res SchemaErr Bool :=
  if schema.has key then do
    let m ← liftE (schema.atFloat key)
    Res.ok (status && decide (x ≥ m))
  else Res.ok status

/-- One `if (schema.has(key)) { status &= size >= schema.at<int_t>(key); }` block,
with the size_t-vs-int64 unsigned comparison. -/
def lenCheckGe (schema : Jon) (key : String) (n : Nat) (status : Bool) : Res SchemaErr Bool :=
  if schema.has key then do
    let m ← liftE (schema.atInt key)
    Res.ok (status && sizeGe n m)
  else Res.ok status

/-- One `if (schema.has(key)) { status &= size <= schema.at<int_t>(key); }` block. -/
def lenCheckLe (schema : Jon) (key : String) (n : Nat) (status : Bool) : Res SchemaErr Bool :=
  if schema.has key then do
    let m ← liftE (schema.atInt key)
    Res.ok (status && sizeLe n m)
  else Res.ok status

/-- The `items` loop of the array branch of Schema::validate, parametrised by the
recursive call: `status &= validate(value, itemsSchema)` for each element. -/
def validateItems (rec : Jon → Jon → Res SchemaErr (Option Bool)) (itemsSchema : Jon) :
    List Jon → Option Bool → Res SchemaErr (Option Bool)
  | [], status => Res.ok status
  | v :: rest, status =>
    match rec v itemsSchema with
    | none => none
    | some (.error e) => some (.error e)
    | some (.ok r) => validateItems rec itemsSchema rest (andO status r)

/-- The props loop of the object branch of Schema::validate, parametrised by the
recursive call. An entry whose key is not in props assigns `status = false`; a
found entry recurses and records the key in checkedProps. -/
def validateProps (rec : Jon → Jon → Res SchemaErr (Option Bool)) (ps : List (String × Jon)) :
    List (String × Jon) → Option Bool → List String → Res SchemaErr (Option Bool × List String)
  | [], status, checked => Res.ok (status, checked)
  | (k, v) :: rest, status, checked =>
    match lookupKey ps k with
    | none => validateProps rec ps rest (some false) checked
    | some sub =>
      match rec v sub with
      | none => none
      | some (.error e) => some (.error e)
      | some (.ok r) => validateProps rec ps rest (andO status r) (checked ++ [k])

/-- Schema::validate (src/include/jon/schema.h:30-143), fuelled for the recursion.
The function is declared `bool validate(...)` in the source; a result of
`some true` / `some false` is the returned bool, and `none` is the unspecified
value of the Null/Bool fall-through, where the function body ends without any
return statement. -/
def validate : Nat → Jon → Jon → Res SchemaErr (Option Bool)
  | 0, _, _ => Res.div
  | fuel + 1, value, schema => do
    let tn ← liftE (schema.atStr "type")
    let expectedType ← liftE (typeNamesAt tn)
    let nullable ← nullableOf schema
    if nullable && value.isNull then Res.ok (some true)
    else if value.typeOf ≠ expectedType then Res.ok (some false)
    else
      match expectedType with
      | .int => do
        let intValue ← liftE value.getInt
        let status := true
        let status ← intCheckLe schema "mini" intValue status
        let status ← intCheckGe schema "maxi" intValue status
        Res.ok (some status)
      | .float => do
        let floatValue ← liftE value.getFloat
        let status := true
        let status ← ratCheckLe schema "minf" floatValue status
        let status ← ratCheckGe schema "maxf" floatValue status
        Res.ok (some status)
      | .string => do
        let stringValue ← liftE value.getStr
        let status := true
        let status ← lenCheckGe schema "minLen" stringValue.length status
        let status ← lenCheckLe schema "maxLen" stringValue.length status
        Res.ok (some status)
      | .array => do
        let arrayValue ← liftE value.getArr
        let status := true
        let status ← lenCheckGe schema "minSize" arrayValue.length status
        let status ← lenCheckLe schema "maxSize" arrayValue.length status
        let itemsSchema ← liftE (schema.atKey "items")
        validateItems (validate fuel) itemsSchema arrayValue (some status)
      | .object => do
        let objectValue ← liftE value.getObj
        let status := true
        let status ← lenCheckGe schema "minProps" objectValue.length status
        let status ← lenCheckLe schema "maxProps" objectValue.length status
        let props ← liftE (schema.atObj "props")
        match validateProps (validate fuel) props objectValue (some status) [] with
        | none => none
        | some (.error e) => some (.error e)
        | some (.ok (status, checkedProps)) =>
          if checkedProps.length ≠ props.length then Res.ok (some false)
          else Res.ok status
      | .null => Res.ok none
      | .bool => Res.ok none

/-- Modelled from src/unnamed/part_000 (Int::Int): the stored payload is
`std::stoull(token.val, nullptr)`, i.e. the token text read in base 10 — the
token's base tag is not consulted. For a string of decimal digits std::stoull
returns their base-10 value, which is the only case exercised here. -/
def intFromToken (t : Token) : Int :=
  Int.ofNat (t.val.data.foldl (fun a c => a * 10 + (c.toNat - 48)) 0)

def digitVal (c : Char) : Nat :=
  if isDigitC c then c.toNat - 48
  else if decide ('a' ≤ c ∧ c ≤ 'f') then c.toNat - 87
  else if decide ('A' ≤ c ∧ c ≤ 'F') then c.toNat - 55
  else 0

/-- The mathematical value of digit text in a base. -/
def baseVal (b : Nat) (s : String) : Nat :=
  s.data.foldl (fun a c => a * b + digitVal c) 0

/-! ## Claim theorems -/

/-- C1: the claim says `validate` returns a ValidationResult — an ordered sequence
of human-readable violation strings, empty iff the value satisfies the schema —
and always completes with that list for a value that merely fails constraints.
In the source, validate is declared `bool validate(...)`, never constructs a
ValidationResult or any string, and for the declared types "null" and "bool" with
a matching value it reaches the end of the function body without executing any
return statement, so it does not even return a defined boolean: the model
evaluates to the unspecified-result marker `none`. -/
theorem C1_validate_produces_no_violation_list :
    validate 9 Jon.null (Jon.obj [("type", Jon.str "null")]) = Res.ok none ∧
    validate 9 (Jon.bool true) (Jon.obj [("type", Jon.str "bool")]) = Res.ok none :=
  ⟨rfl, rfl⟩

def c2schema : Jon :=
  Jon.obj [("type", Jon.str "int"), ("mini", Jon.int 0), ("maxi", Jon.int 10)]

def c2schemaF : Jon :=
  Jon.obj [("type", Jon.str "float"), ("minf", Jon.float 0), ("maxf", Jon.float 10)]

/-- C2: the claim says mini/maxi are inclusive lower/upper bounds, so with mini=0
and maxi=10 the value 5 is accepted while -1 and 11 are rejected. The source has
the comparisons flipped (`status &= intValue <= mini` and `status &= intValue >=
maxi`, schema.h:49 and schema.h:53), so 5 is rejected — as are -1, 11 and even 0;
the float branch (minf/maxf, schema.h:65 and schema.h:69) is flipped the same
way. -/
theorem C2_int_float_bounds_are_flipped :
    validate 9 (Jon.int 5) c2schema = Res.ok (some false) ∧
    validate 9 (Jon.int (-1)) c2schema = Res.ok (some false) ∧
    validate 9 (Jon.int 11) c2schema = Res.ok (some false) ∧
    validate 9 (Jon.int 0) c2schema = Res.ok (some false) ∧
    validate 9 (Jon.float 5) c2schemaF = Res.ok (some false) :=
  ⟨rfl, rfl, rfl, rfl, rfl⟩

def c3src : String := "/* a /* b */ c */null"

/-- The scanner state on entering the block-comment loop for `c3src`: the opening
slash-star has been advanced over, nothing else has moved. -/
def c3st : LexSt := { index := 2, lastNl := 0, col := 2, tokens := [], tokenPos := 0 }

theorem blockLoop_c3_stuck : ∀ fuel, blockLoop c3src.data fuel c3st 1 = Res.div := by
  intro fuel
  induction fuel with
  | zero => rfl
  | succ n ih => exact ih

/-- C3: the claim says scanning the nested block comment followed by `null`
terminates with a single null-literal token. The block-comment loop of
Lexer::lexComment (Lexer.h:317-329) tests peek/lookup and updates the depth
counter but never advances the index, so on this input the loop body repeats in
an unchanged state forever: for every fuel the model reports non-termination. -/
theorem C3_nested_comment_scan_diverges : ∀ fuel, lex fuel c3src = Res.div := by
  intro fuel
  cases fuel with
  | zero => rfl
  | succ n =>
    have h : lexCurrent c3src.data n lexInit = Res.div := by
      calc lexCurrent c3src.data n lexInit
          = blockLoop c3src.data n c3st 1 := rfl
        _ = Res.div := blockLoop_c3_stuck n
    have h2 : mainLoop c3src.data (n + 1) lexInit = Res.div := by
      show Bind.bind (lexCurrent c3src.data n lexInit)
          (fun st => mainLoop c3src.data n st) = Res.div
      rw [h]
      rfl
    show Bind.bind (mainLoop c3src.data (n + 1) lexInit)
        (fun st => Res.ok (addTokenLen { st with tokenPos := st.index } TokenKind.eof 0).tokens)
        = Res.div
    rw [h2]
    rfl

/-- C4: the claim says a numeric literal's token is tagged with its declared base
(2 for a 0b literal) and the stored integer payload equals the literal's value in
that base. The source's binary branch tags the token OctoInt (Lexer.h:424), whose
intBase is 8, and Int::Int parses the stored text with std::stoull in base 10, so
0b101 produces the payload 101 instead of 5. -/
theorem C4_binary_literal_mis_tagged_and_mis_valued :
    lex 99 "0b101\n" = Res.ok
      [{ kind := .octoInt, val := "101", span := { pos := 0, len := 3 } },
       { kind := .nl, val := "", span := { pos := 5, len := 1 } },
       { kind := .eof, val := "", span := { pos := 6, len := 0 } }] ∧
    intBase .octoInt = some 8 ∧
    intBase .binInt = some 2 ∧
    intFromToken { kind := .octoInt, val := "101", span := { pos := 0, len := 3 } } = 101 ∧
    baseVal 2 "101" = 5 :=
  ⟨rfl, rfl, rfl, rfl, rfl⟩

/-- C5: the claim says a candidate identifier whose trimmed text is exactly `true`
is emitted as the true-literal token. The source's branch for "true"
(Lexer.h:533-534) emits TokenKind::False. -/
theorem C5_true_is_lexed_to_the_false_token :
    lex 99 "true\n" = Res.ok
      [{ kind := .falseLit, val := "", span := { pos := 0, len := 4 } },
       { kind := .nl, val := "", span := { pos := 4, len := 1 } },
       { kind := .eof, val := "", span := { pos := 5, len := 0 } }] := rfl

/-- C10: on the one-character source consisting of a single quote, the quote is
the last input char, so `advance` returns NUL as the quote; the string loop exits
at end of input and `skip` peeks at index = source length, where std::string::at
throws a raw std::out_of_range instead of the formatted caret diagnostic. -/
theorem C10_lone_quote_raises_raw_out_of_range :
    lex 99 (String.singleton quoteC) = Res.err .outOfRange := rfl

theorem has_of_atKey_ok (j : Jon) (key : String) (v : Jon) (h : j.atKey key = .ok v) :
    j.has key = true := by
  cases j with
  | obj es =>
    simp only [Jon.atKey] at h
    simp only [Jon.has]
    cases hl : lookupKey es key with
    | none => rw [hl] at h; exact Except.noConfusion h
    | some w => rfl
  | null => exact Except.noConfusion h
  | bool b => exact Except.noConfusion h
  | int i => exact Except.noConfusion h
  | float q => exact Except.noConfusion h
  | str s => exact Except.noConfusion h
  | arr vs => exact Except.noConfusion h

/-- C6: whenever a schema node carries `nullable: true` (and a recognized `type`,
without which Schema::validate throws before the nullable test), validating a
Null value returns true immediately — whatever the declared type and whatever
other constraint keys the node carries, since none of them are read before the
early return at schema.h:35-37. -/
theorem C6_nullable_true_accepts_null (schema : Jon) (tn : String) (ty : JType) (fuel : Nat)
    (hfuel : 0 < fuel)
    (htype : schema.atStr "type" = .ok tn)
    (hty : typeNames tn = some ty)
    (hnullable : schema.atKey "nullable" = .ok (Jon.bool true)) :
    validate fuel Jon.null schema = Res.ok (some true) := by
  obtain ⟨fuel, rfl⟩ : ∃ n, fuel = n + 1 := ⟨fuel - 1, by omega⟩
  have hhas : schema.has "nullable" = true := has_of_atKey_ok schema "nullable" (Jon.bool true) hnullable
  have hnul : nullableOf schema = Res.ok true := by
    simp only [nullableOf, hhas, if_true, hnullable]
    rfl
  simp only [validate, htype, liftE_ok, Res.bind_ok, typeNamesAt, hty, hnul, Jon.isNull,
    Bool.and_true, if_true]

def c6schema : Jon :=
  Jon.obj [("type", Jon.str "string"), ("nullable", Jon.bool true), ("minLen", Jon.int 5)]

theorem C6_witness : validate 1 Jon.null c6schema = Res.ok (some true) :=
  C6_nullable_true_accepts_null c6schema "string" JType.string 1 (by decide) rfl rfl rfl

/-- C9: with a declared type of "null" or "bool", a value of that same type, and
no nullable short-circuit, Schema::validate reaches the end of its body: no
per-type branch exists for Null or Bool and there is no final return statement,
so the returned bool is unspecified — the model reports the unspecified-result
marker `none`. -/
theorem C9_null_bool_fall_off_without_return (value schema : Jon) (tn : String) (nb : Bool)
    (fuel : Nat)
    (hfuel : 0 < fuel)
    (htype : schema.atStr "type" = .ok tn)
    (hnullable : nullableOf schema = Res.ok nb)
    (hcase : (tn = "null" ∧ value = Jon.null ∧ nb = false) ∨
             (tn = "bool" ∧ ∃ b, value = Jon.bool b)) :
    validate fuel value schema = Res.ok none := by
  obtain ⟨fuel, rfl⟩ : ∃ n, fuel = n + 1 := ⟨fuel - 1, by omega⟩
  rcases hcase with ⟨htn, hv, hnb⟩ | ⟨htn, b, hv⟩
  · subst htn hv hnb
    simp only [validate, htype, liftE_ok, Res.bind_ok, typeNamesAt, typeNames, if_true,
      hnullable, Jon.isNull, Jon.typeOf, Bool.false_and, Bool.and_true, if_false,
      ne_eq, not_true_eq_false, Bool.false_eq_true, reduceIte]
  · subst htn hv
    simp only [validate, htype, liftE_ok, Res.bind_ok, typeNamesAt, typeNames, if_true,
      hnullable, Jon.isNull, Jon.typeOf, Bool.and_false, if_false,
      ne_eq, not_true_eq_false, Bool.false_eq_true, reduceIte]
    rfl

theorem C9_witness :
    validate 1 Jon.null (Jon.obj [("type", Jon.str "null")]) = Res.ok none :=
  C9_null_bool_fall_off_without_return Jon.null (Jon.obj [("type", Jon.str "null")]) "null" false 1
    (by decide) rfl rfl (Or.inl ⟨rfl, rfl, rfl⟩)

theorem andO_eq_some_true (a b : Option Bool) (h : andO a b = some true) : a = some true := by
  cases a with
  | none => simp [andO] at h
  | some x =>
    cases b with
    | none => simp [andO] at h
    | some y =>
      simp only [andO, Option.some.injEq] at h
      rcases (Bool.and_eq_true x y).mp h with ⟨hx, _⟩
      rw [hx]

theorem Res.bind_eq_ok {ε α β : Type} {x : Res ε α} {f : α → Res ε β} {b : β}
    (h : (x >>= f) = Res.ok b) : ∃ a, x = Res.ok a ∧ f a = Res.ok b := by
  cases x with
  | none => exact Option.noConfusion h
  | some e =>
    cases e with
    | error e => exact Except.noConfusion (Option.some.inj h)
    | ok a => exact ⟨a, rfl, h⟩

theorem liftE_eq_ok {ε α : Type} {x : Except ε α} {a : α} (h : liftE x = Res.ok a) :
    x = .ok a :=
  Option.some.inj h

theorem validateProps_st_true (rec : Jon → Jon → Res SchemaErr (Option Bool))
    (ps : List (String × Jon)) :
    ∀ (es : List (String × Jon)) (st : Option Bool) (cp : List String) (st' : Option Bool)
      (cp' : List String),
      validateProps rec ps es st cp = Res.ok (st', cp') → st' = some true → st = some true := by
  intro es
  induction es with
  | nil =>
    intro st cp st' cp' h ht
    simp only [validateProps, Res.ok_inj, Prod.mk.injEq] at h
    rw [h.1, ht]
  | cons kv rest ih =>
    intro st cp st' cp' h ht
    obtain ⟨k, v⟩ := kv
    cases hl : lookupKey ps k with
    | none =>
      simp only [validateProps, hl] at h
      have := ih (some false) cp st' cp' h ht
      simp at this
    | some sub =>
      simp only [validateProps, hl] at h
      cases hr : rec v sub with
      | none => rw [hr] at h; exact Option.noConfusion h
      | some e =>
        cases e with
        | error e => rw [hr] at h; exact Except.noConfusion (Option.some.inj h)
        | ok r =>
          rw [hr] at h
          exact andO_eq_some_true st r (ih (andO st r) (cp ++ [k]) st' cp' h ht)

theorem validateProps_missing_key (rec : Jon → Jon → Res SchemaErr (Option Bool))
    (ps : List (String × Jon)) :
    ∀ (es : List (String × Jon)) (st : Option Bool) (cp : List String) (st' : Option Bool)
      (cp' : List String),
      validateProps rec ps es st cp = Res.ok (st', cp') →
      (∃ k v, (k, v) ∈ es ∧ lookupKey ps k = none) →
      st' ≠ some true := by
  intro es
  induction es with
  | nil =>
    intro st cp st' cp' h hbad
    rcases hbad with ⟨k, v, hmem, _⟩
    exact absurd hmem (List.not_mem_nil _)
  | cons kv rest ih =>
    intro st cp st' cp' h hbad ht
    obtain ⟨k0, v0⟩ := kv
    rcases hbad with ⟨k, v, hmem, hnone⟩
    cases hl : lookupKey ps k0 with
    | none =>
      simp only [validateProps, hl] at h
      have := validateProps_st_true rec ps rest (some false) cp st' cp' h ht
      simp at this
    | some sub =>
      rcases List.mem_cons.mp hmem with heq | hmem'
      · rw [Prod.mk.injEq] at heq
        rcases heq with ⟨rfl, rfl⟩
        rw [hnone] at hl
        exact Option.noConfusion hl
      · simp only [validateProps, hl] at h
        cases hr : rec v0 sub with
        | none => rw [hr] at h; exact Option.noConfusion h
        | some e =>
          cases e with
          | error e => rw [hr] at h; exact Except.noConfusion (Option.some.inj h)
          | ok r =>
            rw [hr] at h
            exact ih (andO st r) (cp ++ [k0]) st' cp' h ⟨k, v, hmem', hnone⟩ ht

theorem validateProps_checked (rec : Jon → Jon → Res SchemaErr (Option Bool))
    (ps : List (String × Jon)) :
    ∀ (es : List (String × Jon)) (st : Option Bool) (cp : List String) (st' : Option Bool)
      (cp' : List String),
      validateProps rec ps es st cp = Res.ok (st', cp') →
      cp' = cp ++ (es.filter (fun kv => (lookupKey ps kv.1).isSome)).map Prod.fst := by
  intro es
  induction es with
  | nil =>
    intro st cp st' cp' h
    simp only [validateProps, Res.ok_inj, Prod.mk.injEq] at h
    simp [← h.2]
  | cons kv rest ih =>
    intro st cp st' cp' h
    obtain ⟨k, v⟩ := kv
    cases hl : lookupKey ps k with
    | none =>
      simp only [validateProps, hl] at h
      have := ih (some false) cp st' cp' h
      simpa [List.filter_cons, hl] using this
    | some sub =>
      simp only [validateProps, hl] at h
      cases hr : rec v sub with
      | none => rw [hr] at h; exact Option.noConfusion h
      | some e =>
        cases e with
        | error e => rw [hr] at h; exact Except.noConfusion (Option.some.inj h)
        | ok r =>
          rw [hr] at h
          have := ih (andO st r) (cp ++ [k]) st' cp' h
          simpa [List.filter_cons, hl, List.append_assoc] using this

theorem lookupKey_isSome_iff (l : List (String × Jon)) (key : String) :
    (lookupKey l key).isSome = true ↔ key ∈ l.map Prod.fst := by
  induction l with
  | nil => simp [lookupKey]
  | cons kv rest ih =>
    obtain ⟨k, v⟩ := kv
    by_cases hk : k = key
    · subst hk
      simp [lookupKey]
    · have hk' : ¬ key = k := fun h => hk h.symm
      simp [lookupKey, hk, hk', ih]

/-- C8: against an object schema with a props map, a data property whose name is
not among the schema's props makes validation fail, and validation also fails
whenever the schema's property names are not exactly covered by the data —
every declared schema property must be present. Formally: whenever
Schema::validate returns a defined bool `b` on an object value and either some
data key is absent from props or some props key is absent from the data, then
`b` is false. -/
theorem C8_object_props_coverage (es ps : List (String × Jon)) (schema : Jon) (b : Bool)
    (fuel : Nat)
    (hndData : (es.map Prod.fst).Nodup)
    (hprops : schema.atObj "props" = .ok ps)
    (hbad : (∃ k v, (k, v) ∈ es ∧ lookupKey ps k = none) ∨
            (∃ k v, (k, v) ∈ ps ∧ lookupKey es k = none))
    (hres : validate fuel (Jon.obj es) schema = Res.ok (some b)) :
    b = false := by
  cases fuel with
  | zero => exact Option.noConfusion hres
  | succ fuel =>
    simp only [validate] at hres
    obtain ⟨tn, htn, hres⟩ := Res.bind_eq_ok hres
    obtain ⟨ty, hty, hres⟩ := Res.bind_eq_ok hres
    obtain ⟨nb, hnb, hres⟩ := Res.bind_eq_ok hres
    simp only [Jon.isNull, Bool.and_false, Bool.false_eq_true, if_false, Jon.typeOf, ne_eq] at hres
    cases ty with
    | null => simp at hres; exact hres
    | bool => simp at hres; exact hres
    | int => simp at hres; exact hres
    | float => simp at hres; exact hres
    | string => simp at hres; exact hres
    | array => simp at hres; exact hres
    | object =>
      simp only [not_true_eq_false, if_false, reduceIte, Jon.getObj, hprops, liftE_ok,
        Res.bind_ok] at hres
      obtain ⟨s1, _, hres⟩ := Res.bind_eq_ok hres
      obtain ⟨s2, _, hres⟩ := Res.bind_eq_ok hres
      cases hvp : validateProps (validate fuel) ps es (some s2) [] with
      | none => rw [hvp] at hres; exact Option.noConfusion hres
      | some e =>
        cases e with
        | error e => rw [hvp] at hres; exact Except.noConfusion (Option.some.inj hres)
        | ok pr =>
          obtain ⟨st', cp'⟩ := pr
          simp only [hvp] at hres
          by_cases hlen : cp'.length = ps.length
          · rw [if_neg (by simp [hlen])] at hres
            have hst' : st' = some b := by
              have := Option.some.inj hres
              exact Except.ok.inj this
            rcases hbad with hbadA | ⟨k0, v0, hmem0, hnone0⟩
            · have hne := validateProps_missing_key (validate fuel) ps es (some s2) [] st' cp'
                hvp hbadA
              cases b with
              | false => rfl
              | true => exact absurd (hst'.symm ▸ rfl : st' = some true) hne
            · exfalso
              have hcp := validateProps_checked (validate fuel) ps es (some s2) [] st' cp' hvp
              simp only [List.nil_append] at hcp
              have hsub : cp' ⊆ ps.map Prod.fst := by
                intro x hx
                rw [hcp] at hx
                obtain ⟨kv, hkv, rfl⟩ := List.mem_map.mp hx
                have hpred : ((lookupKey ps kv.1).isSome : Bool) = true :=
                  (List.mem_filter.mp hkv).2
                exact (lookupKey_isSome_iff ps kv.1).mp hpred
              have hnd : cp'.Nodup := by
                rw [hcp]
                exact ((List.filter_sublist es).map Prod.fst).nodup hndData
              have hsp : List.Subperm cp' (ps.map Prod.fst) := List.subperm_of_subset hnd hsub
              have hperm : List.Perm cp' (ps.map Prod.fst) :=
                hsp.perm_of_length_le (by rw [List.length_map, ← hlen])
              have hk0cp : k0 ∈ cp' :=
                hperm.mem_iff.mpr (List.mem_map_of_mem Prod.fst hmem0)
              rw [hcp] at hk0cp
              obtain ⟨kv, hkv, hfst⟩ := List.mem_map.mp hk0cp
              have hkv_es : kv ∈ es := (List.mem_filter.mp hkv).1
              have hsome : (lookupKey es k0).isSome = true := by
                rw [lookupKey_isSome_iff, ← hfst]
                exact List.mem_map_of_mem Prod.fst hkv_es
              rw [hnone0] at hsome
              simp at hsome
          · rw [if_pos hlen] at hres
            have := Except.ok.inj (Option.some.inj hres)
            exact (Option.some.inj this).symm

def c8props : List (String × Jon) := [("b", Jon.obj [("type", Jon.str "int")])]

def c8schema : Jon := Jon.obj [("type", Jon.str "object"), ("props", Jon.obj c8props)]

theorem peek_eq {src : List Char} {st : LexSt} {c : Char} (h : src[st.index]? = some c) :
    peek src st = Res.ok c := by
  simp only [peek, charAt, h]

theorem eofB_false {src : List Char} {st : LexSt} (h : st.index < src.length) :
    eofB src st = false := by
  simp only [eofB, decide_eq_false_iff_not, not_le]
  exact h

/-- One step of `advance` over a non-newline character that is not the last char
of the input. -/
theorem advance_one {src : List Char} {st : LexSt} {c : Char}
    (hidx : src[st.index]? = some c) (hc : c ≠ '\n') (hlt1 : st.index + 1 < src.length) :
    advance src st 1 =
      Res.ok (c, { st with index := st.index + 1, col := (st.col + 1) % 65536 }) := by
  have hpk := peek_eq hidx
  have heof : eofB src { st with index := st.index + 1, col := (st.col + 1) % 65536 } = false :=
    eofB_false (by simpa using hlt1)
  simp only [advance, advLoop, hpk, Res.bind_ok, if_neg hc, heof, Bool.false_eq_true, if_false]

theorem usub64_zero (a : Nat) : usub64 a 0 = a := by
  simp [usub64]

theorem usub64_one {a : Nat} (h1 : 1 ≤ a) : usub64 a 1 = a - 1 := by
  simp only [usub64, if_pos h1]

/-- Running the loop of lexNormalString over string-body characters: it appends
each char to the accumulated value and stops at the first newline. -/
theorem strLoop_run (src : List Char) (q : Char) :
    ∀ (body rest2 : List Char) (fuel : Nat) (st : LexSt) (val : String),
      src.drop st.index = body ++ '\n' :: rest2 →
      (∀ c ∈ body, c ≠ '\n' ∧ c ≠ q) →
      body.length + 1 ≤ fuel →
      ∃ col', strLoop src q fuel st val =
        Res.ok (String.mk (val.data ++ body),
          { st with index := st.index + body.length, col := col' }) := by
  intro body
  induction body with
  | nil =>
    intro rest2 fuel st val hdrop hb hf
    obtain ⟨f, rfl⟩ : ∃ n, fuel = n + 1 := ⟨fuel - 1, by omega⟩
    have hidx : src[st.index]? = some '\n' := by
      have h0 : (src.drop st.index)[0]? = some '\n' := by rw [hdrop]; simp
      rw [List.getElem?_drop] at h0
      simpa using h0
    have hlt : st.index < src.length := by
      obtain ⟨h, _⟩ := List.getElem?_eq_some.mp hidx
      exact h
    refine ⟨st.col, ?_⟩
    simp only [strLoop, eofB_false hlt, Bool.false_eq_true, if_false, peek_eq hidx,
      Res.bind_ok]
    simp
  | cons c0 body' ih =>
    intro rest2 fuel st val hdrop hb hf
    obtain ⟨f, rfl⟩ : ∃ n, fuel = n + 1 := ⟨fuel - 1, by omega⟩
    have hidx : src[st.index]? = some c0 := by
      have h0 : (src.drop st.index)[0]? = some c0 := by rw [hdrop]; simp
      rw [List.getElem?_drop] at h0
      simpa using h0
    have hlt : st.index < src.length := by
      obtain ⟨h, _⟩ := List.getElem?_eq_some.mp hidx
      exact h
    have hc0 := hb c0 (List.mem_cons_self c0 body')
    have hdrop' : src.drop (st.index + 1) = body' ++ '\n' :: rest2 := by
      rw [← List.drop_drop 1 st.index src, hdrop]
      rfl
    have hlt1 : st.index + 1 < src.length := by
      have hne : src.drop (st.index + 1) ≠ [] := by rw [hdrop']; simp
      have := List.length_drop (st.index + 1) src
      cases Nat.lt_or_ge (st.index + 1) src.length with
      | inl h => exact h
      | inr h =>
        exfalso
        apply hne
        have : (src.drop (st.index + 1)).length = 0 := by omega
        exact List.eq_nil_of_length_eq_zero this
    obtain ⟨col', hrec⟩ := ih rest2 f
      { st with index := st.index + 1, col := (st.col + 1) % 65536 } (val.push c0)
      (by simpa using hdrop')
      (fun c hc => hb c (List.mem_cons_of_mem c0 hc))
      (by simpa using Nat.le_of_succ_le_succ hf)
    refine ⟨col', ?_⟩
    have hcond : ¬ (c0 = '\n' ∨ c0 = q) := by
      intro h
      rcases h with h | h
      · exact hc0.1 h
      · exact hc0.2 h
    simp only [strLoop, eofB_false hlt, Bool.false_eq_true, if_false, peek_eq hidx,
      Res.bind_ok, if_neg hcond, advance_one hidx hc0.1 hlt1]
    rw [hrec]
    simp [String.push]
    all_goals omega

theorem lookup_eq {src : List Char} {st : LexSt} {dist : Nat} {c : Char}
    (hcond : st.index < usub64 src.length dist) (h : src[st.index + dist]? = some c) :
    lookup src st dist = Res.ok c := by
  simp only [lookup, if_pos hcond, charAt, h]

/-- Lexer::error raised while standing on a newline: the slice loop stops at once
and the diagnostic is the current line (from lastNl to the newline) plus the
caret line. -/
theorem error_at_nl {α : Type} (src : List Char) (fuel : Nat) (st : LexSt) (msg : String)
    (hf : 1 ≤ fuel)
    (hidx : src[st.index]? = some '\n') :
    error (α := α) src fuel st msg = Res.err (.parseError ("\n" ++
      String.mk (List.take (usub64 st.index st.lastNl) (List.drop st.lastNl src)) ++ "\n" ++
      (if msg.length + 2 < st.col then mkSpaces (st.col - msg.length - 1) ++ msg ++ " ^"
       else mkSpaces st.col ++ "^ " ++ msg))) := by
  obtain ⟨g, rfl⟩ : ∃ n, fuel = n + 1 := ⟨fuel - 1, by omega⟩
  have hlt : st.index < src.length := by
    obtain ⟨h, _⟩ := List.getElem?_eq_some.mp hidx
    exact h
  simp only [error, errSlice, eofB_false hlt, Bool.false_eq_true, if_false, peek_eq hidx,
    Res.bind_ok, if_pos rfl, if_true]

/-- Lexer::skip while standing on a newline with a different expected char: it
reports "Expected ..., got new line" through the error path. -/
theorem skip_at_nl (src : List Char) (fuel : Nat) (st : LexSt) (q : Char)
    (hidx : src[st.index]? = some '\n') (hq : q ≠ '\n') :
    skip src fuel st q =
      error src fuel st ("Expected " ++ ("`" ++ String.singleton q ++ "`") ++ ", got " ++
        "new line") := by
  have hne : ('\n' : Char) ≠ q := fun h => hq h.symm
  simp only [skip, peek_eq hidx, Res.bind_ok, if_pos hne, expectedError, if_pos rfl, if_true]

/-- C7: a source text that opens a single-delimiter string at position 0 and runs
into a newline before any closing delimiter — the string body being free of
newlines and of the delimiter — fails scanning with a thrown parse_error, and
the formatted diagnostic embeds the source line containing the unterminated
string. The bound on the lengths reflects that C++ sizes are size_t values. -/
theorem C7_unterminated_string_fails_with_line_diagnostic (q : Char) (body rest : List Char)
    (fuel : Nat)
    (hq : q = quoteC ∨ q = '"')
    (hbody : ∀ c ∈ body, c ≠ '\n' ∧ c ≠ q)
    (hfuel : body.length + 2 ≤ fuel) :
    ∃ diag : String,
      lex fuel (String.mk (q :: body ++ '\n' :: rest)) = Res.err (.parseError diag) ∧
      List.IsInfix (q :: body) diag.data := by
  obtain ⟨f, rfl⟩ : ∃ n, fuel = n + 1 := ⟨fuel - 1, by omega⟩
  have hq_nl : q ≠ '\n' := by rcases hq with rfl | rfl <;> decide
  have hq_sl : q ≠ '/' := by rcases hq with rfl | rfl <;> decide
  have hc1x : ∃ c1, (body ++ '\n' :: rest)[0]? = some c1 ∧ c1 ≠ q := by
    cases body with
    | nil => exact ⟨'\n', by simp, fun h => hq_nl h.symm⟩
    | cons b0 tl => exact ⟨b0, by simp, (hbody b0 (List.mem_cons_self b0 tl)).2⟩
  obtain ⟨c1, hc1e, hc1ne⟩ := hc1x
  set srcL : List Char := q :: body ++ '\n' :: rest with hsrc
  have hlenL : srcL.length = body.length + rest.length + 2 := by
    simp [hsrc]
    omega
  have h0 : srcL[0]? = some q := by simp [hsrc]
  have h0i : srcL[lexInit.index]? = some q := h0
  set st1 : LexSt := { lexInit with index := lexInit.index + 1, col := (lexInit.col + 1) % 65536 }
    with hst1
  have hA : advance srcL lexInit 1 = Res.ok (q, st1) :=
    advance_one h0i hq_nl (by simp [lexInit]; omega)
  obtain ⟨col', hSL⟩ := strLoop_run srcL q body rest f st1 ""
    (by simp [hst1, lexInit, hsrc]) hbody (by omega)
  set st2 : LexSt := { st1 with index := st1.index + body.length, col := col' } with hst2
  have hi2 : st2.index = (q :: body).length := by
    simp [hst2, hst1, lexInit]
    omega
  have hNL : srcL[st2.index]? = some '\n' := by
    rw [hi2, hsrc, show q :: body ++ '\n' :: rest = (q :: body) ++ ('\n' :: rest) from rfl,
      List.getElem?_append_right (le_refl _)]
    simp
  set msgE : String := "Expected " ++ ("`" ++ String.singleton q ++ "`") ++ ", got " ++ "new line"
    with hmsgE
  set P : String :=
    if msgE.length + 2 < st2.col then mkSpaces (st2.col - msgE.length - 1) ++ msgE ++ " ^"
    else mkSpaces st2.col ++ "^ " ++ msgE with hP
  have hSkip : skip srcL f st2 q =
      Res.err (.parseError ("\n" ++ String.mk (q :: body) ++ "\n" ++ P)) := by
    rw [skip_at_nl srcL f st2 q hNL hq_nl,
      error_at_nl srcL f st2 msgE (by omega) hNL]
    have hl0 : st2.lastNl = 0 := by simp [hst2, hst1, lexInit]
    have hline : List.take (usub64 st2.index st2.lastNl) (List.drop st2.lastNl srcL) =
        q :: body := by
      rw [hl0, List.drop_zero, usub64_zero, hi2, hsrc,
        show q :: body ++ '\n' :: rest = (q :: body) ++ ('\n' :: rest) from rfl]
      exact List.take_left (q :: body) ('\n' :: rest)
    rw [hline]
  have hLNS : lexNormalString srcL f lexInit =
      Res.err (.parseError ("\n" ++ String.mk (q :: body) ++ "\n" ++ P)) := by
    simp only [lexNormalString, hA, Res.bind_ok, hSL, hSkip, Res.bind_err]
  have hc1e2 : srcL[lexInit.index + 1]? = some c1 := by
    show srcL[0 + 1]? = some c1
    rw [hsrc]
    simpa using hc1e
  have hseq : isSeq3 srcL lexInit q = Res.ok false := by
    have hcond0 : lexInit.index < usub64 srcL.length 0 := by
      rw [usub64_zero]
      simp [lexInit]
      omega
    have hcond1 : lexInit.index < usub64 srcL.length 1 := by
      rw [usub64_one (by omega)]
      simp [lexInit]
      omega
    have h00 : srcL[lexInit.index + 0]? = some q := by simpa using h0i
    simp only [isSeq3, lookup_eq hcond0 h00, Res.bind_ok,
      if_neg (show ¬ q ≠ q from fun h => h rfl), lookup_eq hcond1 hc1e2, if_pos hc1ne]
  have hLS : lexString srcL f lexInit =
      Res.err (.parseError ("\n" ++ String.mk (q :: body) ++ "\n" ++ P)) := by
    simp only [lexString, peek_eq h0i, Res.bind_ok, hseq, Bool.false_eq_true, if_false, hLNS]
  have hLCur : lexCurrent srcL f lexInit =
      Res.err (.parseError ("\n" ++ String.mk (q :: body) ++ "\n" ++ P)) := by
    simp only [lexCurrent, peek_eq h0i, Res.bind_ok, if_neg hq_sl, if_pos hq, hLS]
  refine ⟨"\n" ++ String.mk (q :: body) ++ "\n" ++ P, ?_, ?_⟩
  · have hmain : mainLoop srcL (f + 1) lexInit =
        Res.err (.parseError ("\n" ++ String.mk (q :: body) ++ "\n" ++ P)) := by
      show Bind.bind (lexCurrent srcL f lexInit) (fun st => mainLoop srcL f st) =
        Res.err (.parseError ("\n" ++ String.mk (q :: body) ++ "\n" ++ P))
      rw [hLCur]
      rfl
    show Bind.bind (mainLoop srcL (f + 1) lexInit)
        (fun st => Res.ok (addTokenLen { st with tokenPos := st.index } TokenKind.eof 0).tokens) =
      Res.err (.parseError ("\n" ++ String.mk (q :: body) ++ "\n" ++ P))
    rw [hmain]
    rfl
  · refine ⟨['\n'], '\n' :: P.data, ?_⟩
    simp [String.data_append, show ("\n" : String).data = ['\n'] from rfl]

theorem C7_witness : ∃ diag : String,
    lex 99 (String.mk (quoteC :: ['a', 'b', 'c'] ++ '\n' :: [])) = Res.err (.parseError diag) ∧
    List.IsInfix (quoteC :: ['a', 'b', 'c']) diag.data :=
  C7_unterminated_string_fails_with_line_diagnostic quoteC ['a', 'b', 'c'] [] 99
    (Or.inl rfl) (by decide) (by decide)

theorem C8_witness : false = false :=
  C8_object_props_coverage [("a", Jon.int 1)] c8props c8schema false 2
    (by simp) rfl
    (Or.inl ⟨"a", Jon.int 1, by simp, rfl⟩) rfl

end JON
